import Mathlib

/-!
Verification of the etcd storage backend of rdns-server (package etcd,
BackendOperator and its helpers). Go strings are modelled as lists of
characters, the etcd v2 key space as a flat association list from full key
path to node, and the etcd client operations (Get / Set / Delete) as pure
functions on that store. Randomness (slug and token generation) is passed
in as explicit parameters. Possible read failures of the underlying store
that are not key-not-found (the transport errors of the etcd client) are
modelled by a set of faulted paths carried in the world.
-/

namespace RdnsEtcd

/-- A Go string, modelled as its list of characters. -/
abbrev GoStr := List Char

/-- Coerce a Lean string literal to the Go string model. -/
def str (s : String) : GoStr := s.data

/-- The error kinds the modelled etcd client can return: key not found
(etcd code 100), node-type or directory-existence conflicts (codes 102/104,
collapsed into one constructor), transport failures of the client, and
JSON unmarshal failures of convertToMap. -/
inductive Err where
  | keyNotFound : Err
  | notAFile : Err
  | transport : Err
  | jsonError : Err
deriving DecidableEq, Repr

/-- The result of a fallible operation: the Go pattern of returning
a value together with an error is modelled as an explicit sum. -/
inductive Res (α : Type) where
  | ok : α → Res α
  | error : Err → Res α
deriving DecidableEq, Repr

/-- An etcd node as the code reads it from a response: its value, whether
it is a directory, and the absolute expiration reported after a TTL write. -/
structure Node where
  value : GoStr
  dir : Bool
  expiration : Option Nat
deriving DecidableEq, Repr

/-- The state the operations run against: the flat key space of the store,
the set of paths whose reads fail with a transport error, and the current
time used to turn the configured TTL into an absolute expiration. -/
structure World where
  store : List (GoStr × Node)
  readFaults : List GoStr
  now : Nat
deriving DecidableEq, Repr

/-- The configuration of BackendOperator: storage path prefix, default TTL
duration and root domain (source lines 29-34; the client handle is the
World). -/
structure BackendOperator where
  prePath : GoStr
  duration : Nat
  rootDomain : GoStr
deriving DecidableEq, Repr

/-! ## The flat store and the modelled client operations -/

/-- First-match lookup in the flat key space. -/
def lookupStore : List (GoStr × Node) → GoStr → Option Node
  | [], _ => none
  | (k, n) :: rest, key => if k = key then some n else lookupStore rest key

/-- Replace the binding of an existing key in place, or append a new one. -/
def insertStore : List (GoStr × Node) → GoStr → Node → List (GoStr × Node)
  | [], key, n => [(key, n)]
  | (k, m) :: rest, key, n =>
    if k = key then (k, n) :: rest else (k, m) :: insertStore rest key n

@[simp]
theorem lookupStore_insert_self (s : List (GoStr × Node)) (k : GoStr) (n : Node) :
    lookupStore (insertStore s k n) k = some n := by
  induction s with
  | nil => simp [insertStore, lookupStore]
  | cons p rest ih =>
    by_cases h : p.1 = k
    · simp [insertStore, lookupStore, h]
    · simp [insertStore, lookupStore, h, ih]

theorem lookupStore_insert_ne (s : List (GoStr × Node)) (k k' : GoStr) (n : Node)
    (h : k' ≠ k) : lookupStore (insertStore s k n) k' = lookupStore s k' := by
  induction s with
  | nil =>
    have hkk : ¬ k = k' := fun he => h he.symm
    simp [insertStore, lookupStore, hkk]
  | cons p rest ih =>
    obtain ⟨a, b⟩ := p
    have hkk : ¬ k = k' := fun he => h he.symm
    by_cases ha : a = k
    · simp [insertStore, lookupStore, ha, hkk]
    · by_cases ha' : a = k'
      · simp [insertStore, lookupStore, ha, ha', h]
      · simp [insertStore, lookupStore, ha, ha', h, ih]

theorem mem_insertStore (s : List (GoStr × Node)) (k : GoStr) (n : Node) (p : GoStr × Node)
    (h : p ∈ insertStore s k n) : p = (k, n) ∨ p ∈ s := by
  induction s with
  | nil => simpa [insertStore] using h
  | cons q rest ih =>
    obtain ⟨a, b⟩ := q
    by_cases ha : a = k
    · simp only [insertStore, if_pos ha] at h
      rcases List.mem_cons.mp h with h | h
      · left; rw [h, ha]
      · right; exact List.mem_cons_of_mem _ h
    · simp only [insertStore, if_neg ha] at h
      rcases List.mem_cons.mp h with h | h
      · right; exact h ▸ List.mem_cons_self _ _
      · rcases ih h with h | h
        · exact Or.inl h
        · exact Or.inr (List.mem_cons_of_mem _ h)

theorem lookupStore_mem {s : List (GoStr × Node)} {k : GoStr} {n : Node}
    (h : lookupStore s k = some n) : (k, n) ∈ s := by
  induction s with
  | nil => simp [lookupStore] at h
  | cons p rest ih =>
    obtain ⟨a, b⟩ := p
    by_cases ha : a = k
    · simp only [lookupStore, if_pos ha, Option.some.injEq] at h
      subst h
      rw [← ha]
      exact List.mem_cons_self _ _
    · simp only [lookupStore, if_neg ha] at h
      exact List.mem_cons_of_mem _ (ih h)

/-- Model of kapi.Get on a single path: a faulted path fails with a
transport error, an absent key with key-not-found, otherwise the node is
returned. The Go client returns a nil response exactly when it returns an
error. -/
def kget (w : World) (k : GoStr) : Res Node :=
  if k ∈ w.readFaults then Res.error Err.transport
  else match lookupStore w.store k with
    | some n => Res.ok n
    | none => Res.error Err.keyNotFound

/-- The three SetOptions fields the code uses: TTL, Dir and PrevExist. -/
structure SetOpts where
  ttl : Bool
  dir : Bool
  prevExist : Bool
deriving DecidableEq, Repr

/-- Model of kapi.Set (etcd v2 semantics for the option combinations the
code uses): PrevExist demands the key already exist; writing with a
node-type mismatch, or re-creating an existing directory without PrevExist,
fails with the not-a-file conflict; a TTL write records the absolute
expiration now + duration. -/
def kset (e : BackendOperator) (w : World) (k : GoStr) (v : GoStr) (o : SetOpts) :
    Res Node × World :=
  let newExp : Option Nat := if o.ttl then some (w.now + e.duration) else none
  match lookupStore w.store k with
  | some n =>
    if o.dir ≠ n.dir then (Res.error Err.notAFile, w)
    else if o.dir && !o.prevExist then (Res.error Err.notAFile, w)
    else
      let m : Node := ⟨v, n.dir, newExp⟩
      (Res.ok m, World.mk (insertStore w.store k m) w.readFaults w.now)
  | none =>
    if o.prevExist then (Res.error Err.keyNotFound, w)
    else
      let m : Node := ⟨v, o.dir, newExp⟩
      (Res.ok m, World.mk (insertStore w.store k m) w.readFaults w.now)

theorem kget_ok {w : World} {k : GoStr} {n : Node} (h : kget w k = Res.ok n) :
    k ∉ w.readFaults ∧ lookupStore w.store k = some n := by
  by_cases hf : k ∈ w.readFaults
  · simp [kget, hf] at h
  · refine ⟨hf, ?_⟩
    cases hl : lookupStore w.store k with
    | some m => simpa [kget, hf, hl] using h
    | none => simp [kget, hf, hl] at h

theorem kset_ok {e : BackendOperator} {w : World} {k : GoStr} {v : GoStr} {o : SetOpts}
    {n : Node} {w' : World} (h : kset e w k v o = (Res.ok n, w')) :
    n.value = v ∧ n.dir = o.dir
      ∧ n.expiration = (if o.ttl then some (w.now + e.duration) else none)
      ∧ w' = World.mk (insertStore w.store k n) w.readFaults w.now := by
  cases hl : lookupStore w.store k with
  | some m =>
    simp only [kset, hl] at h
    split at h
    · simp at h
    · split at h
      · simp at h
      · rename_i hdir _
        simp only [Prod.mk.injEq, Res.ok.injEq] at h
        obtain ⟨h1, h2⟩ := h
        subst h1
        refine ⟨rfl, ?_, rfl, h2.symm⟩
        simpa using (not_ne_iff.mp hdir).symm
  | none =>
    simp only [kset, hl] at h
    split at h
    · simp at h
    · simp only [Prod.mk.injEq, Res.ok.injEq] at h
      obtain ⟨h1, h2⟩ := h
      subst h1
      exact ⟨rfl, rfl, rfl, h2.symm⟩

/-! ## Pure path and value encoders (source lines 428-481) -/

/-- formatKey: replace every dot by an underscore
(strings.Replace(key, ".", "_", -1), a per-character substitution since
both patterns are single characters). -/
def formatKey (key : GoStr) : GoStr :=
  key.map (fun c => if c = '.' then '_' else c)

/-- Modelled from the spec: the decode direction of the flat token
encoding, replacing each underscore in the token key back with a dot. The
source has no such function; the spec's round-trip property
(decodeTokenPath after toTokenPath) is stated against this definition. -/
def specDecodeTokenKey (key : GoStr) : GoStr :=
  key.map (fun c => if c = '_' then '.' else c)

/-- The fixed root of the token key space (constant tokenOriginPath,
source line 23). -/
def tokenOriginRoot : GoStr := str "/token_origin"

/-- tokenOriginPath (source lines 62-64): fixed root + "/" + the
dot-to-underscore encoded domain. It does not depend on the backend's
prePath. -/
def tokenOriginPathOf (domainName : GoStr) : GoStr :=
  tokenOriginRoot ++ '/' :: formatKey domainName

/-- goSplit models strings.Split with a one-character separator. -/
def goSplit (sep : Char) : GoStr → List GoStr
  | [] => [[]]
  | c :: cs =>
    if c = sep then [] :: goSplit sep cs
    else match goSplit sep cs with
      | [] => [[c]]
      | p :: ps => (c :: p) :: ps

/-- goJoin models strings.Join with a one-character separator. -/
def goJoin (sep : Char) : List GoStr → GoStr
  | [] => []
  | [p] => p
  | p :: ps => p ++ sep :: goJoin sep ps

/-- convertToPath (source lines 428-439): split the domain on dots,
reverse the labels (the in-place swap loop reverses the slice) and join
with slashes under a leading slash. -/
def convertToPath (domain : GoStr) : GoStr :=
  '/' :: goJoin '/' ((goSplit '.' domain).reverse)

/-- e.path (source lines 58-60). -/
def pathOf (e : BackendOperator) (domainName : GoStr) : GoStr :=
  e.prePath ++ convertToPath domainName

/-! ### Lemmas about the split/join pair -/

theorem goSplit_ne_nil (sep : Char) (s : GoStr) : goSplit sep s ≠ [] := by
  induction s with
  | nil => simp [goSplit]
  | cons c cs ih =>
    by_cases h : c = sep
    · simp [goSplit, h]
    · cases hs : goSplit sep cs with
      | nil => simp [goSplit, h, hs]
      | cons p ps => simp [goSplit, h, hs]

theorem mem_of_mem_goSplit (sep : Char) {s : GoStr} {p : GoStr} {c : Char}
    (hp : p ∈ goSplit sep s) (hc : c ∈ p) : c ∈ s := by
  induction s generalizing p with
  | nil =>
    simp only [goSplit, List.mem_singleton] at hp
    subst hp
    simp at hc
  | cons a as ih =>
    by_cases h : a = sep
    · simp only [goSplit, if_pos h, List.mem_cons] at hp
      rcases hp with hp | hp
      · subst hp; simp at hc
      · exact List.mem_cons_of_mem _ (ih hp hc)
    · cases hs : goSplit sep as with
      | nil => exact absurd hs (goSplit_ne_nil sep as)
      | cons q qs =>
        simp only [goSplit, if_neg h, hs, List.mem_cons] at hp
        rcases hp with hp | hp
        · subst hp
          rcases List.mem_cons.mp hc with hc | hc
          · exact hc ▸ List.mem_cons_self _ _
          · exact List.mem_cons_of_mem _ (ih (hs ▸ List.mem_cons_self q qs) hc)
        · exact List.mem_cons_of_mem _ (ih (hs ▸ List.mem_cons_of_mem q hp) hc)

theorem goSplit_no_sep (sep : Char) (s : GoStr) (hs : sep ∉ s) :
    goSplit sep s = [s] := by
  induction s with
  | nil => rfl
  | cons c cs ih =>
    have hc : c ≠ sep := fun h => hs (h ▸ List.mem_cons_self c cs)
    have hcs : sep ∉ cs := fun h => hs (List.mem_cons_of_mem c h)
    simp [goSplit, hc, ih hcs]

theorem goSplit_append_sep (sep : Char) (p t : GoStr) (hp : sep ∉ p) :
    goSplit sep (p ++ sep :: t) = p :: goSplit sep t := by
  induction p with
  | nil => simp [goSplit]
  | cons c cs ih =>
    have hc : c ≠ sep := fun h => hp (h ▸ List.mem_cons_self c cs)
    have hcs : sep ∉ cs := fun h => hp (List.mem_cons_of_mem c h)
    simp [goSplit, hc, ih hcs]

theorem goSplit_goJoin (sep : Char) (ps : List GoStr) (hne : ps ≠ [])
    (hsep : ∀ p ∈ ps, sep ∉ p) : goSplit sep (goJoin sep ps) = ps := by
  induction ps with
  | nil => exact absurd rfl hne
  | cons p qs ih =>
    cases qs with
    | nil =>
      simp only [goJoin]
      exact goSplit_no_sep sep p (hsep p (List.mem_cons_self p []))
    | cons q rs =>
      have hp : sep ∉ p := hsep p (List.mem_cons_self _ _)
      have : goJoin sep (p :: q :: rs) = p ++ sep :: goJoin sep (q :: rs) := rfl
      rw [this, goSplit_append_sep sep p _ hp,
        ih (by simp) (fun r hr => hsep r (List.mem_cons_of_mem p hr))]

theorem goJoin_injOn (sep : Char) (ps qs : List GoStr)
    (hps : ps ≠ []) (hqs : qs ≠ [])
    (hps' : ∀ p ∈ ps, sep ∉ p) (hqs' : ∀ q ∈ qs, sep ∉ q)
    (h : goJoin sep ps = goJoin sep qs) : ps = qs := by
  have h1 := goSplit_goJoin sep ps hps hps'
  have h2 := goSplit_goJoin sep qs hqs hqs'
  rw [← h1, ← h2, h]

/-! ## Claim C3: the token path encoding -/

/-- Claim C3 counterexample: the token path encoding is not injective on
arbitrary domain names and the underscore/dot substitution does not
round-trip: the distinct names a_b and a.b collide on the same token key,
and decoding the key of a_b yields a.b instead. -/
theorem c3_counterexample :
    tokenOriginPathOf (str "a_b") = tokenOriginPathOf (str "a.b")
      ∧ str "a_b" ≠ str "a.b"
      ∧ specDecodeTokenKey (formatKey (str "a_b")) ≠ str "a_b" := by
  decide

theorem specDecodeTokenKey_formatKey (d : GoStr) (hd : '_' ∉ d) :
    specDecodeTokenKey (formatKey d) = d := by
  induction d with
  | nil => rfl
  | cons c cs ih =>
    have hc : c ≠ '_' := fun h => hd (h ▸ List.mem_cons_self c cs)
    have hcs : '_' ∉ cs := fun h => hd (List.mem_cons_of_mem c h)
    by_cases h : c = '.'
    · simp [formatKey, specDecodeTokenKey, h] at ih ⊢
      exact ih hcs
    · simp [formatKey, specDecodeTokenKey, h, hc] at ih ⊢
      exact ih hcs

/-- Claim C3 (amended): restricted to domain names containing no
underscore, the token path encoding (fixed root plus dot-to-underscore
substitution, no reversal) is injective, and replacing underscores back
with dots in the key reconstructs the domain. -/
theorem c3_amended (d1 d2 d : GoStr)
    (h1 : '_' ∉ d1) (h2 : '_' ∉ d2) (hd : '_' ∉ d) :
    (tokenOriginPathOf d1 = tokenOriginPathOf d2 → d1 = d2)
      ∧ specDecodeTokenKey (formatKey d) = d := by
  constructor
  · intro h
    have hk : formatKey d1 = formatKey d2 := by
      have := List.append_cancel_left h
      exact List.cons.inj this |>.2
    calc d1 = specDecodeTokenKey (formatKey d1) := (specDecodeTokenKey_formatKey d1 h1).symm
    _ = specDecodeTokenKey (formatKey d2) := by rw [hk]
    _ = d2 := specDecodeTokenKey_formatKey d2 h2
  · exact specDecodeTokenKey_formatKey d hd

/-- Claim C3 witness: the amended statement at the concrete underscore-free
domains a.b and c. -/
theorem c3_amended_witness :
    ('_' ∉ str "a.b" ∧ '_' ∉ str "c")
      ∧ ((tokenOriginPathOf (str "a.b") = tokenOriginPathOf (str "c") → str "a.b" = str "c")
          ∧ specDecodeTokenKey (formatKey (str "a.b")) = str "a.b") :=
  ⟨by decide, c3_amended (str "a.b") (str "c") (str "a.b") (by decide) (by decide) (by decide)⟩

/-! ## Claim C6: the reversed-label storage path -/

/-- Claim C6: the storage path of a domain is the backend prefix followed
by the domain's labels in reversed order joined with slashes, and for
domain names (strings without a slash) the encoding is injective on label
sequences: different label sequences give different storage paths. -/
theorem c6_storage_path (e : BackendOperator) (d1 d2 : GoStr)
    (h1 : '/' ∉ d1) (h2 : '/' ∉ d2)
    (hne : goSplit '.' d1 ≠ goSplit '.' d2) :
    pathOf e d1 ≠ pathOf e d2
      ∧ pathOf e d1 = e.prePath ++ '/' :: goJoin '/' ((goSplit '.' d1).reverse) := by
  refine ⟨?_, rfl⟩
  intro h
  have hj : goJoin '/' ((goSplit '.' d1).reverse) = goJoin '/' ((goSplit '.' d2).reverse) :=
    (List.cons.inj (List.append_cancel_left h)).2
  have hrev : (goSplit '.' d1).reverse = (goSplit '.' d2).reverse :=
    goJoin_injOn '/' _ _
      (by simp [goSplit_ne_nil])
      (by simp [goSplit_ne_nil])
      (fun p hp hc => h1 (mem_of_mem_goSplit '.' (List.mem_reverse.mp hp) hc))
      (fun p hp hc => h2 (mem_of_mem_goSplit '.' (List.mem_reverse.mp hp) hc))
      hj
  exact hne (List.reverse_injective hrev)

/-- Claim C6 witness: at the slash-free domains a.b and b.a, whose label
sequences differ, the storage paths differ. -/
theorem c6_storage_path_witness :
    ('/' ∉ str "a.b" ∧ '/' ∉ str "b.a" ∧ goSplit '.' (str "a.b") ≠ goSplit '.' (str "b.a"))
      ∧ (pathOf ⟨str "/rdns", 5, str "r"⟩ (str "a.b") ≠ pathOf ⟨str "/rdns", 5, str "r"⟩ (str "b.a")
          ∧ pathOf ⟨str "/rdns", 5, str "r"⟩ (str "a.b")
              = str "/rdns" ++ '/' :: goJoin '/' ((goSplit '.' (str "a.b")).reverse)) :=
  ⟨by decide,
    c6_storage_path ⟨str "/rdns", 5, str "r"⟩ (str "a.b") (str "b.a")
      (by decide) (by decide) (by decide)⟩

/-! ## Value encoders (source lines 16-27, 441-457) -/

/-- The field name of host values (constant ValueHostKey). -/
def ValueHostKey : GoStr := str "host"

/-- The field name of text values (constant ValueTextKey). -/
def ValueTextKey : GoStr := str "text"

/-- The one-field JSON object both formatValue and formatTextValue print.
The literal braces are the 0x7b and 0x7d characters. -/
def wrapJson (field v : GoStr) : GoStr :=
  str "\x7b\"" ++ field ++ str "\":\"" ++ v ++ str "\"\x7d"

/-- formatValue (source lines 449-453). -/
def formatValue (value : GoStr) : GoStr := wrapJson ValueHostKey value

/-- formatTextValue (source lines 455-457). -/
def formatTextValue (value : GoStr) : GoStr := wrapJson ValueTextKey value

/-- Model of convertToMap followed by the lookup of one field: succeeds
exactly on values of the shape wrapJson field v (the only shape the code
ever stores), returning the field's scalar; anything else is a JSON
unmarshal error. -/
def convertToMapValue (field s : GoStr) : Res GoStr :=
  let mid := (s.drop (field.length + 5)).take (s.length - field.length - 7)
  if s = wrapJson field mid then Res.ok mid else Res.error Err.jsonError

/-! ## Claim C5: the host reconciliation inside set -/

/-- sliceToMap (source lines 466-472): a host list as the set of its
elements (the Go map from host to bool). -/
def sliceToMap (ss : List GoStr) : Finset GoStr := ss.toFinset

/-- The delete operations of set's first loop (source lines 182-191): one
delete per distinct current host that is not in the desired host map. The
iteration order of a Go map is unspecified; dedup fixes one order over the
distinct keys. -/
def hostDeleteList (cur new : List GoStr) : List GoStr :=
  cur.dedup.filter (fun h => h ∉ sliceToMap new)

/-- The write operations of set's second loop (source lines 192-201): one
write per distinct desired host that is not in the current host map. -/
def hostAddList (cur new : List GoStr) : List GoStr :=
  new.dedup.filter (fun h => h ∉ sliceToMap cur)

/-- Claim C5: with A the current hosts and B the desired hosts, set's
reconciliation issues exactly one delete per element of A minus B (the
delete list enumerates that set without repetition), exactly one write per
element of B minus A, no operation at all for elements of both sets, and
applying the deletes then the writes to A yields exactly B. -/
theorem c5_host_reconciliation (A B : List GoStr) :
    (hostDeleteList A B).toFinset = A.toFinset \ B.toFinset
      ∧ (hostDeleteList A B).Nodup
      ∧ (hostAddList A B).toFinset = B.toFinset \ A.toFinset
      ∧ (hostAddList A B).Nodup
      ∧ Disjoint (A.toFinset ∩ B.toFinset) (hostDeleteList A B).toFinset
      ∧ Disjoint (A.toFinset ∩ B.toFinset) (hostAddList A B).toFinset
      ∧ (A.toFinset \ (hostDeleteList A B).toFinset) ∪ (hostAddList A B).toFinset = B.toFinset := by
  have hdel : (hostDeleteList A B).toFinset = A.toFinset \ B.toFinset := by
    ext x
    simp [hostDeleteList, sliceToMap, List.mem_filter, List.mem_dedup]
  have hadd : (hostAddList A B).toFinset = B.toFinset \ A.toFinset := by
    ext x
    simp [hostAddList, sliceToMap, List.mem_filter, List.mem_dedup]
  refine ⟨hdel, List.Nodup.filter _ (List.nodup_dedup A), hadd,
    List.Nodup.filter _ (List.nodup_dedup B), ?_, ?_, ?_⟩
  · rw [Finset.disjoint_left]
    intro x hx hx'
    rw [hdel, Finset.mem_sdiff] at hx'
    exact hx'.2 (Finset.mem_inter.mp hx).2
  · rw [Finset.disjoint_left]
    intro x hx hx'
    rw [hadd, Finset.mem_sdiff] at hx'
    exact hx'.2 (Finset.mem_inter.mp hx).1
  · rw [hdel, hadd]
    ext x
    simp only [Finset.mem_union, Finset.mem_sdiff]
    tauto

/-! ## The domain data model (package model) -/

/-- model.DomainOptions: the caller-supplied request value. -/
structure DomainOptions where
  fqdn : GoStr
  hosts : List GoStr
  text : GoStr
deriving DecidableEq, Repr

/-- model.Domain: the snapshot an operation returns. -/
structure Domain where
  fqdn : GoStr
  hosts : List GoStr
  text : GoStr
  expiration : Option Nat
deriving DecidableEq, Repr

/-! ## Further string helpers (strings.HasPrefix / strings.Contains) -/

/-- strings.HasPrefix(s, pre). -/
def goStartsWith : GoStr → GoStr → Bool
  | _, [] => true
  | [], _ :: _ => false
  | c :: cs, p :: ps => c = p && goStartsWith cs ps

/-- strings.Contains(s, sub). -/
def goContains : GoStr → GoStr → Bool
  | [], sub => goStartsWith [] sub
  | c :: cs, sub => goStartsWith (c :: cs) sub || goContains cs sub

/-! ## Remaining modelled client operations -/

/-- Remove the first binding of a key. -/
def removeStore : List (GoStr × Node) → GoStr → List (GoStr × Node)
  | [], _ => []
  | (k, n) :: rest, key => if k = key then rest else (k, n) :: removeStore rest key

/-- Model of kapi.Delete with nil options (the per-host delete of set's
removal loop): deleting an absent key is key-not-found, deleting a
directory without the dir flag is the not-a-file conflict. -/
def kdelete (w : World) (k : GoStr) : Res Unit × World :=
  match lookupStore w.store k with
  | some n =>
    if n.dir then (Res.error Err.notAFile, w)
    else (Res.ok (), World.mk (removeStore w.store k) w.readFaults w.now)
  | none => (Res.error Err.keyNotFound, w)

/-- The keys of the flat store that are immediate children of a directory
path: one further slash-free, non-empty segment below it. -/
def isChildKey (parent k : GoStr) : Bool :=
  goStartsWith k (parent ++ ['/'])
    && decide (parent.length + 1 < k.length)
    && !(decide ('/' ∈ k.drop (parent.length + 1)))

/-- The child entries of a directory in the flat store, in store order
(the order of the response's Nodes). -/
def childEntries (w : World) (path : GoStr) : List (GoStr × Node) :=
  w.store.filter (fun p => isChildKey path p.1)

/-- The collection loop shared by lookupHosts and Get: one decoded host
field per entry, stopping at the first value that fails to parse. -/
def collectHostValues : List (GoStr × Node) → Res (List GoStr)
  | [] => Res.ok []
  | p :: rest =>
    match convertToMapValue ValueHostKey p.2.value with
    | Res.error er => Res.error er
    | Res.ok v =>
      match collectHostValues rest with
      | Res.error er => Res.error er
      | Res.ok vs => Res.ok (v :: vs)

/-- lookupHosts (source lines 66-81): recursive get of the record
directory, then the host field of every child entry. -/
def lookupHosts (w : World) (path : GoStr) : Res (List GoStr) :=
  match kget w path with
  | Res.error er => Res.error er
  | Res.ok _ => collectHostValues (childEntries w path)

/-! ## The Record Store and Text Record Store verbs -/

/-- setTokenOrigin (source lines 133-152). The fresh random token
generateTokenOrigin would produce is passed in as freshToken. The Go code
branches on the read's response being non-nil, which for the etcd client
is exactly the read having succeeded; its error variable from the read is
overwritten by the write's, so only the write's failure is returned. -/
def setTokenOrigin (e : BackendOperator) (dopts : DomainOptions) (exist : Bool)
    (freshToken : GoStr) (w : World) : Res Unit × World :=
  let tp := tokenOriginPathOf dopts.fqdn
  let tokenOrigin : GoStr :=
    match kget w tp with
    | Res.ok resp => resp.value
    | Res.error _ => freshToken
  match kset e w tp tokenOrigin (SetOpts.mk true false exist) with
  | (Res.error er, w') => (Res.error er, w')
  | (Res.ok _, w') => (Res.ok (), w')

/-- The delete loop of set (source lines 182-191), one storage delete per
listed host key, stopping at the first failure. -/
def runHostDeletes (path : GoStr) : List GoStr → World → Res Unit × World
  | [], w => (Res.ok (), w)
  | h :: hs, w =>
    match kdelete w (path ++ '/' :: formatKey h) with
    | (Res.error er, w') => (Res.error er, w')
    | (Res.ok _, w') => runHostDeletes path hs w'

/-- The write loop of set (source lines 192-201), one storage write per
listed host, stopping at the first failure. -/
def runHostAdds (e : BackendOperator) (path : GoStr) : List GoStr → World → Res Unit × World
  | [], w => (Res.ok (), w)
  | h :: hs, w =>
    match kset e w (path ++ '/' :: formatKey h) (formatValue h) (SetOpts.mk false false false) with
    | (Res.error er, w') => (Res.error er, w')
    | (Res.ok _, w') => runHostAdds e path hs w'

/-- set (source lines 154-209): ensure the token, write the record
directory with TTL, read current hosts, then reconcile them against the
desired hosts. -/
def setOp (e : BackendOperator) (path : GoStr) (dopts : DomainOptions) (exist : Bool)
    (freshToken : GoStr) (w : World) : Res Domain × World :=
  match setTokenOrigin e dopts exist freshToken w with
  | (Res.error er, w1) => (Res.error er, w1)
  | (Res.ok _, w1) =>
    match kset e w1 path [] (SetOpts.mk true true exist) with
    | (Res.error er, w2) => (Res.error er, w2)
    | (Res.ok n, w2) =>
      match lookupHosts w2 path with
      | Res.error er => (Res.error er, w2)
      | Res.ok curHosts =>
        match runHostDeletes path (hostDeleteList curHosts dopts.hosts) w2 with
        | (Res.error er, w3) => (Res.error er, w3)
        | (Res.ok _, w3) =>
          match runHostAdds e path (hostAddList curHosts dopts.hosts) w3 with
          | (Res.error er, w4) => (Res.error er, w4)
          | (Res.ok _, w4) =>
            (Res.ok (Domain.mk dopts.fqdn dopts.hosts [] n.expiration), w4)

/-- Get (source lines 229-252): read the record directory, project the
non-directory children's host fields into the snapshot. -/
def GetOp (e : BackendOperator) (dopts : DomainOptions) (w : World) : Res Domain :=
  let path := pathOf e dopts.fqdn
  match kget w path with
  | Res.error er => Res.error er
  | Res.ok n =>
    match collectHostValues ((childEntries w path).filter (fun p => !p.2.dir)) with
    | Res.error er => Res.error er
    | Res.ok hosts => Res.ok (Domain.mk dopts.fqdn hosts [] n.expiration)

/-- Constant maxSlugHashTimes (source line 22). -/
def maxSlugHashTimes : Nat := 100

/-- The candidate fully-qualified name of the i-th slug attempt
(source line 258). -/
def candidateFqdn (e : BackendOperator) (slugs : Nat → GoStr) (i : Nat) : GoStr :=
  slugs i ++ '.' :: e.rootDomain

/-- The slug probing loop of Create (source lines 257-267): stop at the
first probe that fails with key-not-found, keeping the fqdn and path;
any other outcome, success included, moves to the next attempt. The
running path variable keeps the last probed path when no attempt breaks. -/
def slugSearch (e : BackendOperator) (slugs : Nat → GoStr) (w : World) :
    List Nat → GoStr → Option GoStr × GoStr
  | [], p => (none, p)
  | i :: rest, _ =>
    let fqdn := candidateFqdn e slugs i
    let p := pathOf e fqdn
    match kget w p with
    | Res.error Err.keyNotFound => (some fqdn, p)
    | _ => slugSearch e slugs w rest p

/-- Create (source lines 254-275). The slug stream stands for the random
generateSlug outcomes. Create mutates the caller's DomainOptions through
its pointer when a free slug is found, so the final DomainOptions value is
part of the result. -/
def CreateOp (e : BackendOperator) (slugs : Nat → GoStr) (freshToken : GoStr) (w : World)
    (dopts : DomainOptions) : Res Domain × World × DomainOptions :=
  let probe := slugSearch e slugs w (List.range maxSlugHashTimes) []
  let dopts' : DomainOptions :=
    match probe.1 with
    | some fqdn => DomainOptions.mk fqdn dopts.hosts dopts.text
    | none => dopts
  match setOp e probe.2 dopts' false freshToken w with
  | (Res.error er, w') => (Res.error er, w', dopts')
  | (Res.ok _, w') => (GetOp e dopts' w', w', dopts')

/-- The path computation repeated in CreateText, GetText, UpdateText and
DeleteText (source lines 312-323): names containing the ACME challenge
label go under prefix/_txt with the labels in forward order; all others
use the ordinary reversed path. -/
def textPath (e : BackendOperator) (fqdn : GoStr) : GoStr :=
  if goContains fqdn (str "_acme-challenge") then
    e.prePath ++ '/' :: goJoin '/' (goSplit '.' (str "_txt." ++ fqdn))
  else pathOf e fqdn

/-- setText (source lines 211-227): write the wrapped text value with TTL
and the existence-dependent precondition; the returned snapshot carries
the caller's scalar. -/
def setText (e : BackendOperator) (path : GoStr) (dopts : DomainOptions) (exist : Bool)
    (w : World) : Res Domain × World :=
  match kset e w path (formatTextValue dopts.text) (SetOpts.mk true false exist) with
  | (Res.error er, w') => (Res.error er, w')
  | (Res.ok n, w') => (Res.ok (Domain.mk dopts.fqdn [] dopts.text n.expiration), w')

/-- CreateText (source lines 309-338): existence probe (any outcome other
than key-not-found counts as existing), then setText. -/
def CreateText (e : BackendOperator) (dopts : DomainOptions) (w : World) : Res Domain × World :=
  let path := textPath e dopts.fqdn
  let exist : Bool :=
    match kget w path with
    | Res.error Err.keyNotFound => false
    | _ => true
  setText e path dopts exist w

/-- GetText (source lines 340-366): read the node at the text path and
return its raw stored value as the snapshot's text. -/
def GetText (e : BackendOperator) (dopts : DomainOptions) (w : World) : Res Domain :=
  match kget w (textPath e dopts.fqdn) with
  | Res.error er => Res.error er
  | Res.ok n => Res.ok (Domain.mk dopts.fqdn [] n.value n.expiration)

/-! ## The expiration refresher (Renew) -/

/-- The substring Renew matches ACME keys against (source lines 114-115):
the domain's labels joined with slashes in forward order. -/
def sourceOf (fqdn : GoStr) : GoStr := goJoin '/' (goSplit '.' fqdn)

/-- The fixed ACME namespace directory (source line 107). -/
def acmeRootOf (e : BackendOperator) : GoStr := e.prePath ++ str "/_txt/_acme-challenge"

/-- The keys the recursive listing of the ACME namespace yields in the
flat store: every key strictly below the namespace root
(nodesToStringSlice over the response tree, source lines 483-495). -/
def listKeysUnder (w : World) (root : GoStr) : List GoStr :=
  (w.store.map Prod.fst).filter (fun k => goStartsWith k (root ++ ['/']))

/-- The ACME refresh loop of refreshExpiration (source lines 112-128):
for every listed key containing the domain's forward-label path, read the
entry and re-write its own value with a fresh TTL, requiring the entry to
exist; the first failure aborts the loop. -/
def refreshAcmeKeys (e : BackendOperator) (fqdn : GoStr) :
    List GoStr → World → Res Unit × World
  | [], w => (Res.ok (), w)
  | key :: rest, w =>
    if goContains key (sourceOf fqdn) then
      match kget w key with
      | Res.error er => (Res.error er, w)
      | Res.ok n =>
        match kset e w key n.value (SetOpts.mk true false true) with
        | (Res.error er, w') => (Res.error er, w')
        | (Res.ok _, w') => refreshAcmeKeys e fqdn rest w'
    else refreshAcmeKeys e fqdn rest w

/-- refreshExpiration (source lines 83-131): refresh the token, refresh
the record directory's TTL requiring prior existence, re-read current
hosts, then list the ACME namespace and refresh every matching entry. -/
def refreshExpiration (e : BackendOperator) (path : GoStr) (dopts : DomainOptions)
    (freshToken : GoStr) (w : World) : Res Domain × World :=
  match setTokenOrigin e dopts true freshToken w with
  | (Res.error er, w1) => (Res.error er, w1)
  | (Res.ok _, w1) =>
    match kset e w1 path [] (SetOpts.mk true true true) with
    | (Res.error er, w2) => (Res.error er, w2)
    | (Res.ok n, w2) =>
      match lookupHosts w2 path with
      | Res.error er => (Res.error er, w2)
      | Res.ok curHosts =>
        match kget w2 (acmeRootOf e) with
        | Res.error er => (Res.error er, w2)
        | Res.ok _ =>
          match refreshAcmeKeys e dopts.fqdn (listKeysUnder w2 (acmeRootOf e)) w2 with
          | (Res.error er, w3) => (Res.error er, w3)
          | (Res.ok _, w3) => (Res.ok (Domain.mk dopts.fqdn curHosts [] n.expiration), w3)

/-- Renew (source lines 292-298). -/
def RenewOp (e : BackendOperator) (dopts : DomainOptions) (freshToken : GoStr)
    (w : World) : Res Domain × World :=
  refreshExpiration e (pathOf e dopts.fqdn) dopts freshToken w

/-! ## Concrete fixtures used by the counterexamples and witnesses -/

/-- A small concrete backend: prefix /rdns, TTL 5, root domain r. -/
def e0 : BackendOperator := ⟨str "/rdns", 5, str "r"⟩

/-- A slug stream whose every draw is s. -/
def slugs0 : Nat → GoStr := fun _ => str "s"

/-- A concrete request: domain a.b with one desired host. -/
def dopts0 : DomainOptions := ⟨str "a.b", [str "1.1.1.1"], []⟩

/-- A world where the path of every s.r candidate is already occupied. -/
def wOccupied : World := ⟨[(str "/rdns/r/s", ⟨[], true, none⟩)], [], 0⟩

/-- The empty world. -/
def wEmpty : World := ⟨[], [], 0⟩

/-- A concrete ACME text request with value tok123. -/
def doptsAcme : DomainOptions := ⟨str "_acme-challenge.a.b", [], str "tok123"⟩

/-- A world where the token of a.b exists but its path's reads fail. -/
def wTokenFault : World :=
  ⟨[(tokenOriginPathOf (str "a.b"), ⟨str "t1", false, some 9⟩)],
    [tokenOriginPathOf (str "a.b")], 0⟩

/-- A world where the token of a.b exists and reads succeed. -/
def wTokenOk : World :=
  ⟨[(tokenOriginPathOf (str "a.b"), ⟨str "t1", false, some 9⟩)], [], 0⟩

/-- A world holding a.b's registration directory and token but no ACME
namespace directory. -/
def wRenew : World :=
  ⟨[(tokenOriginPathOf (str "a.b"), ⟨str "t1", false, some 9⟩),
    (pathOf e0 (str "a.b"), ⟨[], true, some 9⟩)], [], 0⟩

/-! ## Claim C1: what GetText returns after CreateText -/

theorem setText_ok {e : BackendOperator} {path : GoStr} {dopts : DomainOptions}
    {exist : Bool} {w : World} {d : Domain} {w' : World}
    (h : setText e path dopts exist w = (Res.ok d, w')) :
    ∃ n : Node,
      kset e w path (formatTextValue dopts.text) (SetOpts.mk true false exist) = (Res.ok n, w')
        ∧ d = Domain.mk dopts.fqdn [] dopts.text n.expiration := by
  unfold setText at h
  cases hks : kset e w path (formatTextValue dopts.text) (SetOpts.mk true false exist) with
  | mk r w2 =>
    rw [hks] at h
    cases r with
    | error er => simp at h
    | ok n =>
      simp only [Prod.mk.injEq, Res.ok.injEq] at h
      refine ⟨n, ?_, h.1.symm⟩
      rw [h.2]

theorem CreateText_ok {e : BackendOperator} {dopts : DomainOptions} {w : World}
    {d : Domain} {w' : World} (h : CreateText e dopts w = (Res.ok d, w')) :
    ∃ (ex : Bool) (n : Node),
      kset e w (textPath e dopts.fqdn) (formatTextValue dopts.text) (SetOpts.mk true false ex)
          = (Res.ok n, w')
        ∧ d = Domain.mk dopts.fqdn [] dopts.text n.expiration := by
  simp only [CreateText] at h
  obtain ⟨n, hk, hd⟩ := setText_ok h
  exact ⟨_, n, hk, hd⟩

/-- Claim C1 counterexample: the claim's own scenario fails on the code.
CreateText for _acme-challenge.a.b with value tok123 succeeds (its own
snapshot carries Text tok123), but GetText for the same name returns the
serialized wrapper stored in etcd, not the scalar. -/
theorem c1_counterexample :
    (CreateText e0 doptsAcme wEmpty).1
        = Res.ok (Domain.mk (str "_acme-challenge.a.b") [] (str "tok123") (some 5))
      ∧ GetText e0 doptsAcme (CreateText e0 doptsAcme wEmpty).2
        = Res.ok (Domain.mk (str "_acme-challenge.a.b") []
            (str "\x7b\"text\":\"tok123\"\x7d") (some 5))
      ∧ str "\x7b\"text\":\"tok123\"\x7d" ≠ str "tok123" := by
  decide

/-- Claim C1 (amended): after a successful CreateText (UpdateText funnels
into the same setText) storing v, GetText for the same fully-qualified
name returns the stored etcd node value - the serialized wrapper
formatTextValue v - plus the expiration; the bare scalar v appears only in
the snapshot the write itself returned. -/
theorem c1_amended (e : BackendOperator) (dopts : DomainOptions) (w : World)
    (d : Domain) (w' : World)
    (hok : CreateText e dopts w = (Res.ok d, w'))
    (hnf : textPath e dopts.fqdn ∉ w.readFaults) :
    GetText e dopts w'
        = Res.ok (Domain.mk dopts.fqdn [] (formatTextValue dopts.text)
            (some (w.now + e.duration)))
      ∧ d.text = dopts.text := by
  obtain ⟨ex, n, hk, hd⟩ := CreateText_ok hok
  obtain ⟨hv, hdir, hexp, hw⟩ := kset_ok hk
  subst hw
  constructor
  · have hkg : kget (World.mk (insertStore w.store (textPath e dopts.fqdn) n)
        w.readFaults w.now) (textPath e dopts.fqdn) = Res.ok n := by
      simp [kget, hnf, lookupStore_insert_self]
    simp only [GetText, hkg]
    rw [hv]
    simp only [SetOpts.mk.injEq] at hexp
    simp [hexp]
  · rw [hd]

/-- Claim C1 witness: the amended statement at the concrete tok123 run. -/
theorem c1_amended_witness :
    GetText e0 doptsAcme
        (World.mk [(textPath e0 (str "_acme-challenge.a.b"),
          Node.mk (formatTextValue (str "tok123")) false (some 5))] [] 0)
        = Res.ok (Domain.mk doptsAcme.fqdn [] (formatTextValue doptsAcme.text)
            (some (wEmpty.now + e0.duration)))
      ∧ (Domain.mk (str "_acme-challenge.a.b") [] (str "tok123") (some 5)).text
          = doptsAcme.text :=
  c1_amended e0 doptsAcme wEmpty
    (Domain.mk (str "_acme-challenge.a.b") [] (str "tok123") (some 5))
    (World.mk [(textPath e0 (str "_acme-challenge.a.b"),
      Node.mk (formatTextValue (str "tok123")) false (some 5))] [] 0)
    (by decide) (by decide)

/-! ## Claim C2: exhaustion of the slug loop -/

/-- The value of Create's running path variable after a run of the slug
loop in which no probe breaks: the path of the last candidate probed. -/
def lastProbePath (e : BackendOperator) (slugs : Nat → GoStr) : List Nat → GoStr → GoStr
  | [], p => p
  | i :: rest, _ => lastProbePath e slugs rest (pathOf e (candidateFqdn e slugs i))

theorem lastProbePath_append (e : BackendOperator) (slugs : Nat → GoStr) (i : Nat) :
    ∀ (l : List Nat) (p : GoStr),
    lastProbePath e slugs (l ++ [i]) p = pathOf e (candidateFqdn e slugs i) := by
  intro l
  induction l with
  | nil => intro p; rfl
  | cons j rest ih => intro p; exact ih _

theorem slugSearch_occupied (e : BackendOperator) (slugs : Nat → GoStr) (w : World) :
    ∀ (l : List Nat) (p : GoStr),
    (∀ i ∈ l, kget w (pathOf e (candidateFqdn e slugs i)) ≠ Res.error Err.keyNotFound) →
    slugSearch e slugs w l p = (none, lastProbePath e slugs l p) := by
  intro l
  induction l with
  | nil => intro p h; rfl
  | cons i rest ih =>
    intro p h
    have hi := h i (List.mem_cons_self i rest)
    have hstep : slugSearch e slugs w (i :: rest) p
        = slugSearch e slugs w rest (pathOf e (candidateFqdn e slugs i)) := by
      cases hk : kget w (pathOf e (candidateFqdn e slugs i)) with
      | ok n => simp only [slugSearch, hk]
      | error er =>
        cases er with
        | keyNotFound => exact absurd hk hi
        | notAFile => simp only [slugSearch, hk]
        | transport => simp only [slugSearch, hk]
        | jsonError => simp only [slugSearch, hk]
    rw [hstep, ih _ (fun j hj => h j (List.mem_cons_of_mem i hj))]
    simp only [lastProbePath]

/-- Claim C2 counterexample: a run in which all 100 slug probes find an
occupied path. Create does not fail with a capacity or collision error:
it proceeds, leaves the caller's options unchanged, writes the ownership
token for the original name, and returns the storage conflict from
setting the occupied directory. -/
theorem c2_counterexample :
    (CreateOp e0 slugs0 (str "tok") wOccupied dopts0).1 = Res.error Err.notAFile
      ∧ (CreateOp e0 slugs0 (str "tok") wOccupied dopts0).2.2 = dopts0
      ∧ lookupStore (CreateOp e0 slugs0 (str "tok") wOccupied dopts0).2.1.store
          (tokenOriginPathOf (str "a.b"))
        = some (Node.mk (str "tok") false (some 5)) := by
  decide

/-- Claim C2 (amended): the slug loop is bounded at maxSlugHashTimes
attempts, so Create never loops forever; but when every probe finds an
occupied path, Create does not fail with a capacity or collision error:
the loop falls through with the caller's DomainOptions unchanged and
Create proceeds to run set, and then Get, against the path of the last
(100th) candidate, returning whatever that set or Get produces. -/
theorem c2_amended (e : BackendOperator) (slugs : Nat → GoStr) (freshToken : GoStr)
    (w : World) (dopts : DomainOptions)
    (h : ∀ i, i < maxSlugHashTimes →
      kget w (pathOf e (candidateFqdn e slugs i)) ≠ Res.error Err.keyNotFound) :
    CreateOp e slugs freshToken w dopts
      = (match setOp e (pathOf e (candidateFqdn e slugs 99)) dopts false freshToken w with
          | (Res.error er, w') => (Res.error er, w', dopts)
          | (Res.ok _, w') => (GetOp e dopts w', w', dopts)) := by
  have hs : slugSearch e slugs w (List.range maxSlugHashTimes) []
      = (none, pathOf e (candidateFqdn e slugs 99)) := by
    rw [slugSearch_occupied e slugs w _ [] (fun i hi => h i (List.mem_range.mp hi))]
    have hr : List.range maxSlugHashTimes = List.range 99 ++ [99] := by decide
    rw [hr, lastProbePath_append]
  simp only [CreateOp, hs]

/-- Claim C2 witness: the amended statement at the all-occupied world. -/
theorem c2_amended_witness :
    CreateOp e0 slugs0 (str "tok") wOccupied dopts0
      = (match setOp e0 (pathOf e0 (candidateFqdn e0 slugs0 99)) dopts0 false (str "tok")
            wOccupied with
          | (Res.error er, w') => (Res.error er, w', dopts0)
          | (Res.ok _, w') => (GetOp e0 dopts0 w', w', dopts0)) :=
  c2_amended e0 slugs0 (str "tok") wOccupied dopts0 (by decide)

/-! ## Claims C4 and C8: setTokenOrigin's read and the token's value -/

/-- When the read of the token path succeeds on a leaf node, setTokenOrigin
re-writes that node's value unchanged with a refreshed TTL, whatever the
exist flag. Shared by the statements about C8 and C10. -/
theorem setTokenOrigin_reuses (e : BackendOperator) (dopts : DomainOptions) (exist : Bool)
    (freshToken : GoStr) (w : World) (n : Node)
    (hn : lookupStore w.store (tokenOriginPathOf dopts.fqdn) = some n)
    (hf : tokenOriginPathOf dopts.fqdn ∉ w.readFaults)
    (hd : n.dir = false) :
    setTokenOrigin e dopts exist freshToken w
      = (Res.ok (), World.mk
          (insertStore w.store (tokenOriginPathOf dopts.fqdn)
            (Node.mk n.value false (some (w.now + e.duration))))
          w.readFaults w.now) := by
  have hget : kget w (tokenOriginPathOf dopts.fqdn) = Res.ok n := by
    simp [kget, hf, hn]
  simp only [setTokenOrigin, hget]
  simp [kset, hn, hd]

/-- Claim C4 counterexample: the read of an existing token fails with a
transport error, yet setTokenOrigin reports success: the read's failure
is not returned to the caller. -/
theorem c4_counterexample :
    kget wTokenFault (tokenOriginPathOf (str "a.b")) = Res.error Err.transport
      ∧ (setTokenOrigin e0 dopts0 true (str "f1") wTokenFault).1 = Res.ok () := by
  decide

/-- Claim C4 (amended): not every storage failure inside the verbs is
propagated: setTokenOrigin discards the outcome of its read of the
existing token. Whenever that read fails - with any error - the call
behaves exactly as the token write of the fresh token, and only that
write's failure can be returned; the read's error never is. The bounded
slug loop in Create remains the other place where storage outcomes are
absorbed. -/
theorem c4_amended (e : BackendOperator) (dopts : DomainOptions) (exist : Bool)
    (freshToken : GoStr) (w : World) (er : Err)
    (hget : kget w (tokenOriginPathOf dopts.fqdn) = Res.error er) :
    setTokenOrigin e dopts exist freshToken w
      = (match kset e w (tokenOriginPathOf dopts.fqdn) freshToken
            (SetOpts.mk true false exist) with
          | (Res.error er', w') => (Res.error er', w')
          | (Res.ok _, w') => (Res.ok (), w')) := by
  simp only [setTokenOrigin, hget]

/-- Claim C4 witness: the amended statement at the faulted concrete world. -/
theorem c4_amended_witness :
    setTokenOrigin e0 dopts0 true (str "f1") wTokenFault
      = (match kset e0 wTokenFault (tokenOriginPathOf dopts0.fqdn) (str "f1")
            (SetOpts.mk true false true) with
          | (Res.error er', w') => (Res.error er', w')
          | (Res.ok _, w') => (Res.ok (), w')) :=
  c4_amended e0 dopts0 true (str "f1") wTokenFault Err.transport (by decide)

/-- Claim C8 counterexample: a token for a.b exists with value t1, but its
read fails with a transport error; setTokenOrigin then generates a fresh
token and overwrites the existing value, although a token was present. -/
theorem c8_counterexample :
    lookupStore wTokenFault.store (tokenOriginPathOf (str "a.b"))
        = some (Node.mk (str "t1") false (some 9))
      ∧ (setTokenOrigin e0 dopts0 true (str "f2") wTokenFault).1 = Res.ok ()
      ∧ lookupStore (setTokenOrigin e0 dopts0 true (str "f2") wTokenFault).2.store
          (tokenOriginPathOf (str "a.b"))
        = some (Node.mk (str "f2") false (some 5))
      ∧ str "f2" ≠ str "t1" := by
  decide

/-- Claim C8 (amended): the token value is preserved whenever the read of
the token path succeeds: setTokenOrigin re-writes the existing value
unchanged and only its TTL advances. A fresh random token is written
exactly when that read fails - because no token is present, or because
the read itself failed, in which case an existing token's value is
replaced. -/
theorem c8_amended (e : BackendOperator) (dopts : DomainOptions) (exist : Bool)
    (freshToken : GoStr) (w : World) (n : Node)
    (hn : lookupStore w.store (tokenOriginPathOf dopts.fqdn) = some n)
    (hf : tokenOriginPathOf dopts.fqdn ∉ w.readFaults)
    (hd : n.dir = false) :
    setTokenOrigin e dopts exist freshToken w
      = (Res.ok (), World.mk
          (insertStore w.store (tokenOriginPathOf dopts.fqdn)
            (Node.mk n.value false (some (w.now + e.duration))))
          w.readFaults w.now) :=
  setTokenOrigin_reuses e dopts exist freshToken w n hn hf hd

/-- Claim C8 witness: the amended statement at the fault-free concrete
world, where the existing value t1 is preserved. -/
theorem c8_amended_witness :
    setTokenOrigin e0 dopts0 true (str "f3") wTokenOk
      = (Res.ok (), World.mk
          (insertStore wTokenOk.store (tokenOriginPathOf dopts0.fqdn)
            (Node.mk (Node.mk (str "t1") false (some 9)).value false
              (some (wTokenOk.now + e0.duration))))
          wTokenOk.readFaults wTokenOk.now) :=
  c8_amended e0 dopts0 true (str "f3") wTokenOk (Node.mk (str "t1") false (some 9))
    (by decide) (by decide) (by decide)

/-! ## Claim C9: Create mutates the caller's DomainOptions -/

/-- Claim C9 counterexample: with a free first slug, Create overwrites the
caller-supplied Fqdn a.b with the generated s.r: the DomainOptions value
is not immutable for the duration of the operation. -/
theorem c9_counterexample :
    (CreateOp e0 slugs0 (str "tok") wEmpty dopts0).2.2.fqdn ≠ dopts0.fqdn
      ∧ (CreateOp e0 slugs0 (str "tok") wEmpty dopts0).2.2.fqdn = str "s.r" := by
  decide

/-- Claim C9 (amended): only Create mutates the caller-supplied
DomainOptions, and only its Fqdn field: the Fqdn is overwritten with the
generated candidate name exactly when some probe of the slug loop finds a
free path, and the options are returned unchanged otherwise; the hosts
and text fields are never modified. -/
theorem c9_amended (e : BackendOperator) (slugs : Nat → GoStr) (freshToken : GoStr)
    (w : World) (dopts : DomainOptions) :
    (CreateOp e slugs freshToken w dopts).2.2.hosts = dopts.hosts
      ∧ (CreateOp e slugs freshToken w dopts).2.2.text = dopts.text
      ∧ ((slugSearch e slugs w (List.range maxSlugHashTimes) []).1 = none →
          (CreateOp e slugs freshToken w dopts).2.2 = dopts)
      ∧ (∀ f, (slugSearch e slugs w (List.range maxSlugHashTimes) []).1 = some f →
          (CreateOp e slugs freshToken w dopts).2.2
            = DomainOptions.mk f dopts.hosts dopts.text) := by
  have key : (CreateOp e slugs freshToken w dopts).2.2
      = (match (slugSearch e slugs w (List.range maxSlugHashTimes) []).1 with
          | some fqdn => DomainOptions.mk fqdn dopts.hosts dopts.text
          | none => dopts) := by
    simp only [CreateOp]
    cases hopt : (slugSearch e slugs w (List.range maxSlugHashTimes) []).1 with
    | none =>
      cases hs : setOp e (slugSearch e slugs w (List.range maxSlugHashTimes) []).2 dopts
          false freshToken w with
      | mk r w' => cases r <;> simp [hs]
    | some f =>
      cases hs : setOp e (slugSearch e slugs w (List.range maxSlugHashTimes) []).2
          (DomainOptions.mk f dopts.hosts dopts.text) false freshToken w with
      | mk r w' => cases r <;> simp [hs]
  refine ⟨?_, ?_, ?_, ?_⟩
  · rw [key]
    cases hopt : (slugSearch e slugs w (List.range maxSlugHashTimes) []).1 <;> rfl
  · rw [key]
    cases hopt : (slugSearch e slugs w (List.range maxSlugHashTimes) []).1 <;> rfl
  · intro hnone
    rw [key, hnone]
  · intro f hsome
    rw [key, hsome]

/-! ## Claim C7: the ACME refresh loop of Renew -/

theorem refreshAcmeKeys_ok (e : BackendOperator) (fqdn : GoStr) :
    ∀ (keys : List GoStr) (w w' : World),
    refreshAcmeKeys e fqdn keys w = (Res.ok (), w') →
    w'.now = w.now ∧ w'.readFaults = w.readFaults ∧
    (∀ k n, lookupStore w.store k = some n →
      ∃ n', lookupStore w'.store k = some n'
        ∧ n'.value = n.value
        ∧ ((k ∈ keys ∧ goContains k (sourceOf fqdn) = true) →
            n'.expiration = some (w.now + e.duration))
        ∧ (¬(k ∈ keys ∧ goContains k (sourceOf fqdn) = true) → n' = n)) := by
  intro keys
  induction keys with
  | nil =>
    intro w w' h
    simp only [refreshAcmeKeys, Prod.mk.injEq] at h
    rw [← h.2]
    exact ⟨rfl, rfl, fun k n hk =>
      ⟨n, hk, rfl, fun hc => absurd hc.1 (List.not_mem_nil k), fun _ => rfl⟩⟩
  | cons key rest ih =>
    intro w w' h
    by_cases hc : goContains key (sourceOf fqdn) = true
    · cases hk : kget w key with
      | error er => simp [refreshAcmeKeys, hc, hk] at h
      | ok n0 =>
        cases hs : kset e w key n0.value (SetOpts.mk true false true) with
        | mk r w1 =>
          cases r with
          | error er => simp [refreshAcmeKeys, hc, hk, hs] at h
          | ok m =>
            rw [show refreshAcmeKeys e fqdn (key :: rest) w
                = refreshAcmeKeys e fqdn rest w1
              from by simp [refreshAcmeKeys, hc, hk, hs]] at h
            obtain ⟨hfa, hl0⟩ := kget_ok hk
            obtain ⟨hmv, hmd, hme, hw1⟩ := kset_ok hs
            subst hw1
            obtain ⟨hnow, hflt, hmain⟩ := ih _ _ h
            refine ⟨hnow, hflt, ?_⟩
            intro k n hkn
            by_cases hkk : k = key
            · subst hkk
              have hn0 : n = n0 := by
                rw [hkn] at hl0
                exact Option.some.inj hl0
              obtain ⟨n', hn', hval, hexp, hun⟩ :=
                hmain k m (lookupStore_insert_self w.store k m)
              refine ⟨n', hn', ?_, ?_, ?_⟩
              · rw [hval, hmv, hn0]
              · intro _
                by_cases hkr : k ∈ rest ∧ goContains k (sourceOf fqdn) = true
                · exact hexp hkr
                · rw [hun hkr, hme]
                  rfl
              · intro hcon
                exact absurd ⟨List.mem_cons_self _ _, hc⟩ hcon
            · have hl1 : lookupStore (insertStore w.store key m) k = some n := by
                rw [lookupStore_insert_ne _ _ _ _ hkk]
                exact hkn
              obtain ⟨n', hn', hval, hexp, hun⟩ := hmain k n hl1
              refine ⟨n', hn', hval, ?_, ?_⟩
              · rintro ⟨hmm, hmt⟩
                rcases List.mem_cons.mp hmm with hE | hmr
                · exact absurd hE hkk
                · exact hexp ⟨hmr, hmt⟩
              · intro hnot
                apply hun
                rintro ⟨hmr, hmt⟩
                exact hnot ⟨List.mem_cons_of_mem _ hmr, hmt⟩
    · rw [show refreshAcmeKeys e fqdn (key :: rest) w = refreshAcmeKeys e fqdn rest w
        from by simp only [refreshAcmeKeys, if_neg hc]] at h
      obtain ⟨hnow, hflt, hmain⟩ := ih w w' h
      refine ⟨hnow, hflt, ?_⟩
      intro k n hkn
      obtain ⟨n', hn', hval, hexp, hun⟩ := hmain k n hkn
      refine ⟨n', hn', hval, ?_, ?_⟩
      · rintro ⟨hmm, hmt⟩
        rcases List.mem_cons.mp hmm with hE | hmr
        · rw [hE] at hmt
          exact absurd hmt hc
        · exact hexp ⟨hmr, hmt⟩
      · intro hnot
        apply hun
        rintro ⟨hmr, hmt⟩
        exact hnot ⟨List.mem_cons_of_mem _ hmr, hmt⟩

theorem refreshAcmeKeys_err (e : BackendOperator) (fqdn : GoStr) :
    ∀ (keys : List GoStr) (w : World) (k : GoStr),
    k ∈ keys → goContains k (sourceOf fqdn) = true →
    (k ∈ w.readFaults ∨ lookupStore w.store k = none) →
    ∃ er w', refreshAcmeKeys e fqdn keys w = (Res.error er, w') := by
  intro keys
  induction keys with
  | nil => intro w k hk; simp at hk
  | cons key rest ih =>
    intro w k hk hmt hbad
    rcases List.mem_cons.mp hk with hE | hkr
    · subst hE
      have hkg : ∃ er, kget w k = Res.error er := by
        rcases hbad with hb | hb
        · exact ⟨Err.transport, by simp [kget, hb]⟩
        · by_cases hf : k ∈ w.readFaults
          · exact ⟨Err.transport, by simp [kget, hf]⟩
          · exact ⟨Err.keyNotFound, by simp [kget, hf, hb]⟩
      obtain ⟨er, her⟩ := hkg
      refine ⟨er, w, ?_⟩
      simp only [refreshAcmeKeys, if_pos hmt, her]
    · by_cases hcKey : goContains key (sourceOf fqdn) = true
      · cases hk2 : kget w key with
        | error er =>
          exact ⟨er, w, by simp only [refreshAcmeKeys, if_pos hcKey, hk2]⟩
        | ok n0 =>
          cases hs : kset e w key n0.value (SetOpts.mk true false true) with
          | mk r w1 =>
            cases r with
            | error er =>
              exact ⟨er, w1, by simp only [refreshAcmeKeys, if_pos hcKey, hk2, hs]⟩
            | ok m =>
              obtain ⟨hmv, hmd, hme, hw1⟩ := kset_ok hs
              have hbad1 : k ∈ w1.readFaults ∨ lookupStore w1.store k = none := by
                subst hw1
                rcases hbad with hb | hb
                · exact Or.inl hb
                · right
                  by_cases hkk : k = key
                  · subst hkk
                    rw [(kget_ok hk2).2] at hb
                    cases hb
                  · rw [lookupStore_insert_ne _ _ _ _ hkk]
                    exact hb
              obtain ⟨er, w', hrw⟩ := ih w1 k hkr hmt hbad1
              refine ⟨er, w', ?_⟩
              simp only [refreshAcmeKeys, if_pos hcKey, hk2, hs]
              exact hrw
      · obtain ⟨er, w', hrw⟩ := ih w k hkr hmt hbad
        refine ⟨er, w', ?_⟩
        simp only [refreshAcmeKeys, if_neg hcKey]
        exact hrw

/-- Claim C7: the ACME refresh phase of Renew (the loop refreshExpiration
runs over the recursive listing of the ACME namespace). On success every
listed entry whose key contains the domain's forward-label path has its
TTL refreshed to the full duration while its stored value stays
byte-identical, and every other stored entry is left fully untouched; and
whenever some matching entry cannot be refreshed (its read faults or the
entry is absent), the loop aborts with an error - which refreshExpiration
and Renew propagate - instead of skipping that entry. -/
theorem c7_renew_acme (e : BackendOperator) (fqdn : GoStr) (keys : List GoStr) (w : World) :
    (∀ w', refreshAcmeKeys e fqdn keys w = (Res.ok (), w') →
      ∀ k n, lookupStore w.store k = some n →
        ∃ n', lookupStore w'.store k = some n'
          ∧ n'.value = n.value
          ∧ ((k ∈ keys ∧ goContains k (sourceOf fqdn) = true) →
              n'.expiration = some (w.now + e.duration))
          ∧ (¬(k ∈ keys ∧ goContains k (sourceOf fqdn) = true) → n' = n))
    ∧ (∀ k, k ∈ keys → goContains k (sourceOf fqdn) = true →
        (k ∈ w.readFaults ∨ lookupStore w.store k = none) →
        ∃ er w', refreshAcmeKeys e fqdn keys w = (Res.error er, w')) :=
  ⟨fun w' h => (refreshAcmeKeys_ok e fqdn keys w w' h).2.2,
    fun k hk hmt hbad => refreshAcmeKeys_err e fqdn keys w k hk hmt hbad⟩

/-! ## Claim C10: Renew against a store without the ACME namespace -/

theorem goStartsWith_le_length {s pre : GoStr} (h : goStartsWith s pre = true) :
    pre.length ≤ s.length := by
  induction s generalizing pre with
  | nil =>
    cases pre with
    | nil => simp
    | cons p ps => simp [goStartsWith] at h
  | cons c cs ih =>
    cases pre with
    | nil => simp
    | cons p ps =>
      simp only [goStartsWith, Bool.and_eq_true] at h
      have := ih h.2
      simp only [List.length_cons]
      omega

theorem isChildKey_self (parent : GoStr) : isChildKey parent parent = false := by
  unfold isChildKey
  by_cases h : goStartsWith parent (parent ++ ['/']) = true
  · have hlen := goStartsWith_le_length h
    rw [List.length_append] at hlen
    simp at hlen
  · rw [Bool.not_eq_true] at h
    simp [h]

/-- Claim C10: whenever the ACME namespace directory is absent from the
store (and unfaulted), Renew returns a key-not-found error even for a
domain with no ACME entries whose own token and directory TTL were already
refreshed successfully: the resulting world keeps both refreshed nodes,
nothing is rolled back. -/
theorem c10_renew_missing_acme_dir (e : BackendOperator) (dopts : DomainOptions)
    (freshToken : GoStr) (w : World) (tn dn : Node)
    (ht : lookupStore w.store (tokenOriginPathOf dopts.fqdn) = some tn)
    (htd : tn.dir = false)
    (htf : tokenOriginPathOf dopts.fqdn ∉ w.readFaults)
    (hd : lookupStore w.store (pathOf e dopts.fqdn) = some dn)
    (hdd : dn.dir = true)
    (hdf : pathOf e dopts.fqdn ∉ w.readFaults)
    (hnoch : ∀ p ∈ w.store, isChildKey (pathOf e dopts.fqdn) p.1 = false)
    (ha : lookupStore w.store (acmeRootOf e) = none)
    (haf : acmeRootOf e ∉ w.readFaults) :
    ∃ w', RenewOp e dopts freshToken w = (Res.error Err.keyNotFound, w')
      ∧ lookupStore w'.store (tokenOriginPathOf dopts.fqdn)
          = some (Node.mk tn.value false (some (w.now + e.duration)))
      ∧ lookupStore w'.store (pathOf e dopts.fqdn)
          = some (Node.mk [] true (some (w.now + e.duration))) := by
  have htdp : tokenOriginPathOf dopts.fqdn ≠ pathOf e dopts.fqdn := by
    intro hE
    rw [hE, hd] at ht
    have h2 := Option.some.inj ht
    rw [← h2] at htd
    rw [htd] at hdd
    cases hdd
  have hatp : acmeRootOf e ≠ tokenOriginPathOf dopts.fqdn := by
    intro hE
    rw [hE, ht] at ha
    cases ha
  have hadp : acmeRootOf e ≠ pathOf e dopts.fqdn := by
    intro hE
    rw [hE, hd] at ha
    cases ha
  have h1 := setTokenOrigin_reuses e dopts true freshToken w tn ht htf htd
  have hl1 : lookupStore
      (insertStore w.store (tokenOriginPathOf dopts.fqdn)
        (Node.mk tn.value false (some (w.now + e.duration))))
      (pathOf e dopts.fqdn) = some dn := by
    rw [lookupStore_insert_ne _ _ _ _ (Ne.symm htdp)]
    exact hd
  have h2 : kset e
      (World.mk (insertStore w.store (tokenOriginPathOf dopts.fqdn)
        (Node.mk tn.value false (some (w.now + e.duration)))) w.readFaults w.now)
      (pathOf e dopts.fqdn) [] (SetOpts.mk true true true)
      = (Res.ok (Node.mk [] true (some (w.now + e.duration))),
          World.mk (insertStore
            (insertStore w.store (tokenOriginPathOf dopts.fqdn)
              (Node.mk tn.value false (some (w.now + e.duration))))
            (pathOf e dopts.fqdn) (Node.mk [] true (some (w.now + e.duration))))
            w.readFaults w.now) := by
    simp [kset, hl1, hdd]
  have hchild : childEntries
      (World.mk (insertStore
        (insertStore w.store (tokenOriginPathOf dopts.fqdn)
          (Node.mk tn.value false (some (w.now + e.duration))))
        (pathOf e dopts.fqdn) (Node.mk [] true (some (w.now + e.duration))))
        w.readFaults w.now)
      (pathOf e dopts.fqdn) = [] := by
    apply List.filter_eq_nil_iff.mpr
    intro p hp
    rcases mem_insertStore _ _ _ p hp with hP | hP
    · rw [hP]
      simp [isChildKey_self]
    · rcases mem_insertStore _ _ _ p hP with hQ | hQ
      · rw [hQ]
        have := hnoch _ (lookupStore_mem ht)
        simp only at this ⊢
        simp [this]
      · simp [hnoch p hQ]
  have hlh : lookupHosts
      (World.mk (insertStore
        (insertStore w.store (tokenOriginPathOf dopts.fqdn)
          (Node.mk tn.value false (some (w.now + e.duration))))
        (pathOf e dopts.fqdn) (Node.mk [] true (some (w.now + e.duration))))
        w.readFaults w.now)
      (pathOf e dopts.fqdn) = Res.ok [] := by
    have hkg : kget
        (World.mk (insertStore
          (insertStore w.store (tokenOriginPathOf dopts.fqdn)
            (Node.mk tn.value false (some (w.now + e.duration))))
          (pathOf e dopts.fqdn) (Node.mk [] true (some (w.now + e.duration))))
          w.readFaults w.now)
        (pathOf e dopts.fqdn)
        = Res.ok (Node.mk [] true (some (w.now + e.duration))) := by
      simp [kget, hdf, lookupStore_insert_self]
    simp [lookupHosts, hkg, hchild, collectHostValues]
  have hacme : kget
      (World.mk (insertStore
        (insertStore w.store (tokenOriginPathOf dopts.fqdn)
          (Node.mk tn.value false (some (w.now + e.duration))))
        (pathOf e dopts.fqdn) (Node.mk [] true (some (w.now + e.duration))))
        w.readFaults w.now)
      (acmeRootOf e) = Res.error Err.keyNotFound := by
    simp only [kget]
    rw [if_neg haf, lookupStore_insert_ne _ _ _ _ hadp,
      lookupStore_insert_ne _ _ _ _ hatp, ha]
  refine ⟨World.mk (insertStore
      (insertStore w.store (tokenOriginPathOf dopts.fqdn)
        (Node.mk tn.value false (some (w.now + e.duration))))
      (pathOf e dopts.fqdn) (Node.mk [] true (some (w.now + e.duration))))
      w.readFaults w.now, ?_, ?_, ?_⟩
  · show refreshExpiration e (pathOf e dopts.fqdn) dopts freshToken w = _
    simp only [refreshExpiration, h1, h2, hlh, hacme]
  · rw [lookupStore_insert_ne _ _ _ _ htdp, lookupStore_insert_self]
  · rw [lookupStore_insert_self]

/-- Claim C10 witness: the statement at a concrete world holding only
a.b's token and registration directory and no ACME namespace. -/
theorem c10_renew_missing_acme_dir_witness :
    ∃ w', RenewOp e0 dopts0 (str "f9") wRenew = (Res.error Err.keyNotFound, w')
      ∧ lookupStore w'.store (tokenOriginPathOf dopts0.fqdn)
          = some (Node.mk (Node.mk (str "t1") false (some 9)).value false
              (some (wRenew.now + e0.duration)))
      ∧ lookupStore w'.store (pathOf e0 dopts0.fqdn)
          = some (Node.mk [] true (some (wRenew.now + e0.duration))) :=
  c10_renew_missing_acme_dir e0 dopts0 (str "f9") wRenew
    (Node.mk (str "t1") false (some 9)) (Node.mk [] true (some 9))
    (by decide) (by decide) (by decide) (by decide) (by decide) (by decide)
    (by decide) (by decide) (by decide)

end RdnsEtcd
